import Mathlib

/-!
Verification of the UpsetPlot core: the intersection-data model and text
parser (`src/components/Home/Home.tsx`, class `UpsetMatrixData` and
`parseUpsetMatrix`) and the layout / interaction logic of the renderer
(`src/components/UpsetPlot/UpsetPlot.tsx`, class `UpsetPlot`).

The embedding is shallow: JavaScript strings are Lean `String`s, the
string operations the source uses (`split` on a single character, `trim`,
`startsWith`, `substring`, `parseInt`) are re-implemented structurally on
`List Char` so that concrete inputs evaluate inside the kernel, numbers in
the layout are `ℚ` (the source works in IEEE doubles; every claim checked
here is about the exact formulas), and the promise returned by
`parseUpsetMatrix` is an `Except`: `.error` is the rejection path of the
promise (a format error; the separate `FileReader` I/O failure happens
before any of the embedded code runs and is not modelled), `.ok` the
resolution with the populated model.
-/

/-- JS single-character `String.prototype.split`, on the character list:
`"" → [""]`, separators at the ends produce empty fields, exactly as in JS. -/
def splitOnChar (sep : Char) : List Char → List (List Char)
  | [] => [[]]
  | c :: cs =>
    let rest := splitOnChar sep cs
    if c = sep then [] :: rest
    else
      match rest with
      | [] => [[c]]
      | f :: fs => (c :: f) :: fs

/-- JS `split` with a one-character separator, as the source uses it for
`'\n'`, `'\t'` and `','`. -/
def jsSplit (sep : Char) (s : String) : List String :=
  (splitOnChar sep s.data).map String.mk

/-- The whitespace characters JS `String.prototype.trim` strips (the ASCII
ones plus NBSP and the BOM; the source files are plain ASCII). -/
def isJsWhitespace (c : Char) : Bool :=
  c = ' ' || c = '\t' || c = '\n' || c = '\r' || c = '\x0b' || c = '\x0c' ||
    c = ' ' || c = '﻿'

/-- JS `String.prototype.trim`. -/
def jsTrim (s : String) : String :=
  ⟨((s.data.dropWhile isJsWhitespace).reverse.dropWhile isJsWhitespace).reverse⟩

/-- JS `String.prototype.startsWith` with a one-character argument
(the source only tests for a leading `'#'`). -/
def startsWithChar (c : Char) (s : String) : Bool :=
  s.data.head? == some c

/-- JS `String.prototype.substring(0, e)`: a negative end is clamped to 0,
an end beyond the length to the length. -/
def jsSubstring (s : String) (e : Int) : String :=
  ⟨s.data.take e.toNat⟩

/-- The longest leading run of decimal digits of a character list. -/
def leadingDigits : List Char → List Char
  | [] => []
  | c :: cs => if c.isDigit then c :: leadingDigits cs else []

/-- The number a list of decimal digits denotes. -/
def digitsVal (ds : List Char) : Nat :=
  ds.foldl (fun acc c => acc * 10 + (c.toNat - 48)) 0

/-- JS `parseInt(s, 10)` as the source calls it (always on a trimmed field):
an optional sign, then the longest leading run of decimal digits; `none`
stands for `NaN` (no digits at all). `parseInt` stops at the first
non-digit, so `"12abc"` parses to `12`, and it accepts a sign, so `"-5"`
parses to `-5`. -/
def jsParseInt (s : String) : Option Int :=
  match s.data with
  | '-' :: cs =>
    match leadingDigits cs with
    | [] => none
    | ds => some (-(digitsVal ds : Int))
  | '+' :: cs =>
    match leadingDigits cs with
    | [] => none
    | ds => some ((digitsVal ds : Int))
  | cs =>
    match leadingDigits cs with
    | [] => none
    | ds => some ((digitsVal ds : Int))

/-- One entry of `UpsetMatrixData.intersections`: `{ set, value }`, where
`set` is the combination key (comma-joined component set names) and `value`
the parsed count. -/
structure Intersection where
  set : String
  value : Int
deriving DecidableEq, Repr

/-- The class `UpsetMatrixData` of `Home.tsx`: a `Set<string>` of set names
(kept here as its insertion-ordered, duplicate-free element list, which is
what `getSets` returns via `Array.from`) and the ordered intersection
list. -/
structure UpsetMatrixData where
  sets : List String
  intersections : List Intersection
deriving DecidableEq, Repr

/-- A freshly constructed `UpsetMatrixData`. -/
def emptyData : UpsetMatrixData := ⟨[], []⟩

/-- `UpsetMatrixData.addSet`: `Set.add`, a no-op on an already known name. -/
def addSet (m : UpsetMatrixData) (name : String) : UpsetMatrixData :=
  if name ∈ m.sets then m else { m with sets := m.sets ++ [name] }

/-- The comma-split component names of a combination key
(`set.split(',')` in `addIntersection`). -/
def components (key : String) : List String :=
  jsSplit ',' key

/-- `UpsetMatrixData.addIntersection`: push the entry, then register every
comma-split component of the key via `addSet`. -/
def addIntersection (m : UpsetMatrixData) (set : String) (value : Int) : UpsetMatrixData :=
  (components set).foldl addSet
    { m with intersections := m.intersections ++ [⟨set, value⟩] }

/-- `UpsetMatrixData.getMaxIntersectionValue`: 0 on an empty intersection
list, else `Math.max(...intersections.map(i => i.value))`. -/
def getMaxIntersectionValue (m : UpsetMatrixData) : Int :=
  match m.intersections.map Intersection.value with
  | [] => 0
  | v :: vs => vs.foldl max v

/-- `UpsetMatrixData.isSetInIntersection`: membership of `setName` among
the comma-split components of the combination key. -/
def isSetInIntersection (setName intersection : String) : Bool :=
  (components intersection).contains setName

/-- The rejection of the `parseUpsetMatrix` promise raised from the parsing
loop: the `throw new Error` on a line that does not split on tab into
exactly two fields. (The other rejection of the promise, the `FileReader`
`onerror` path, fires before the parsing code runs on any text and is a
distinct error kind outside this embedding.) -/
inductive ParseError where
  | formatError (line : String)
deriving DecidableEq, Repr

/-- The body of the `lines.forEach` callback of `parseUpsetMatrix` on one
line: skip a line that is blank after trimming, skip a `'#'` comment,
split on tab; with exactly two fields parse the trimmed second field as an
integer and either add the intersection or (on NaN) drop the line with a
console warning; with any other field count throw, aborting the loop. -/
def parseLine (m : UpsetMatrixData) (line : String) : Except ParseError UpsetMatrixData :=
  if jsTrim line = "" then .ok m
  else if startsWithChar '#' line then .ok m
  else
    match jsSplit '\t' line with
    | [f0, f1] =>
      match jsParseInt (jsTrim f1) with
      | some value => .ok (addIntersection m (jsTrim f0) value)
      | none => .ok m
    | _ => .error (.formatError line)

/-- The `lines.forEach` loop: a throw from the callback escapes `forEach`
at once, so the remaining lines are not processed and the promise
rejects. -/
def parseLines (m : UpsetMatrixData) : List String → Except ParseError UpsetMatrixData
  | [] => .ok m
  | l :: ls =>
    match parseLine m l with
    | .ok m' => parseLines m' ls
    | .error e => .error e

/-- `parseUpsetMatrix` on the text the reader delivered: split into lines,
run the loop over a fresh `UpsetMatrixData`, resolve with the populated
model or reject with the format error. -/
def parseUpsetMatrix (text : String) : Except ParseError UpsetMatrixData :=
  parseLines emptyData (jsSplit '\n' text)

/-- A line the parser neither skips nor accepts: not blank after trimming,
not a `'#'` comment, and its tab-split field count is not exactly 2. -/
def lineFormatViolation (line : String) : Prop :=
  jsTrim line ≠ "" ∧ startsWithChar '#' line = false ∧ (jsSplit '\t' line).length ≠ 2

instance (line : String) : Decidable (lineFormatViolation line) := by
  unfold lineFormatViolation; infer_instance

/-- A list of `addIntersection` calls run on a fresh model, the way a
successful parse builds one. -/
def buildModel (adds : List (String × Int)) : UpsetMatrixData :=
  adds.foldl (fun m kv => addIntersection m kv.1 kv.2) emptyData

/-- The union of the comma-split components of all added combination keys. -/
def unionComponents (adds : List (String × Int)) : Finset String :=
  adds.foldr (fun kv s => (components kv.1).toFinset ∪ s) ∅

/-- The `dimensions` the wrapper passes to `UpsetPlot` (the grid cell's
size and the font-size setting; the cell offset `x`, `y` is not read by
`render` and is omitted). -/
structure Dimensions where
  width : ℚ
  height : ℚ
  fontSize : ℚ
deriving DecidableEq, Repr

/-- `d3.max(sets, d => d.length) || 0` of `render`. -/
def maxLabelLength (sets : List String) : ℕ :=
  (sets.map String.length).foldl Nat.max 0

/-- `Math.floor(margin.left / (labelFontSize * 0.6)) - 2` of the
intersection-label callback: the character budget of a displayed row
label. -/
def maxDisplayLength (marginLeft labelFontSize : ℚ) : Int :=
  ⌊marginLeft / (labelFontSize * (3/5))⌋ - 2

/-- The displayed text of one intersection (row) label: the full
combination key when it fits the budget, else
`key.substring(0, maxDisplayLength - 3) + '...'`. -/
def truncateLabel (marginLeft labelFontSize : ℚ) (key : String) : String :=
  if (key.length : Int) > maxDisplayLength marginLeft labelFontSize then
    jsSubstring key (maxDisplayLength marginLeft labelFontSize - 3) ++ "..."
  else key

/-- The geometry `UpsetPlot.render` computes before drawing, field for
field, plus the intersection (row) labels it draws: each as
(displayed text, `title` text), the `title` child always carrying the
untruncated key. -/
structure RenderLayout where
  marginTop : ℚ
  marginRight : ℚ
  marginBottom : ℚ
  marginLeft : ℚ
  width : ℚ
  height : ℚ
  labelFontSize : ℚ
  label_height : ℚ
  dot_height : ℚ
  dot_width : ℚ
  spacer_width : ℚ
  bar_x : ℚ
  bar_y : ℚ
  bar_height : ℚ
  bar_width : ℚ
  cell_width : ℚ
  cell_height : ℚ
  maxValue : Int
  intersectionLabels : List (String × String)
deriving Repr

/-- The arithmetic of `UpsetPlot.render` (lines 250–290 of
`UpsetPlot.tsx`), with the source's constants written as exact rationals:
`componentRatios.dot.width = 0.5`, `componentRatios.spacer = 0.025`, the
margins `top 30`, `bottom 10`, `right max(60, 10% width)`,
`left max(70, 15% width)`, the adaptive label font size
`min(12, fontSize, max(8, 14 - maxLabelLength/4))`, the label row
`max(labelFontSize * 1.5, 8% height)`, and the per-cell sizes
`dot_width / sets.length` and `min(30, dot_height / intersections.length)`. -/
def computeLayout (dims : Dimensions) (m : UpsetMatrixData) : RenderLayout :=
  let marginTop : ℚ := 30
  let marginRight : ℚ := max 60 (dims.width * (1/10))
  let marginBottom : ℚ := 10
  let marginLeft : ℚ := max 70 (dims.width * (3/20))
  let width := dims.width - marginLeft - marginRight
  let height := dims.height - marginTop - marginBottom
  let labelFontSize :=
    min 12 (min dims.fontSize (max 8 (14 - (maxLabelLength m.sets : ℚ) / 4)))
  let label_height := max (labelFontSize * (3/2)) (height * (2/25))
  let dot_height := height - label_height
  let dot_width := width * (1/2)
  let spacer_width := width * (1/40)
  { marginTop := marginTop
    marginRight := marginRight
    marginBottom := marginBottom
    marginLeft := marginLeft
    width := width
    height := height
    labelFontSize := labelFontSize
    label_height := label_height
    dot_height := dot_height
    dot_width := dot_width
    spacer_width := spacer_width
    bar_x := dot_width + spacer_width
    bar_y := label_height
    bar_height := dot_height
    bar_width := width - dot_width - spacer_width - 40
    cell_width := dot_width / (m.sets.length : ℚ)
    cell_height := min 30 (dot_height / (m.intersections.length : ℚ))
    maxValue := getMaxIntersectionValue m
    intersectionLabels :=
      m.intersections.map fun e =>
        (truncateLabel marginLeft labelFontSize e.set, e.set) }

/-- `UpsetPlot.render`: the guard
`if (!sets || !intersections || sets.length === 0 || intersections.length === 0) return;`
skips all drawing (`none`); otherwise the geometry is computed and the
chart drawn (`some`). The guard is the only early return: the dimensions
are not inspected before drawing. -/
def render (dims : Dimensions) (m : UpsetMatrixData) : Option RenderLayout :=
  if m.sets.isEmpty || m.intersections.isEmpty then none
  else some (computeLayout dims m)

/-- The click handler of the interaction rectangles when no external
`onIntersectionClick` is registered: remove the row's key from
`selectedIntersections` if present (`filter(s => s !== d.set)`), else
append it. -/
def clickToggle (selected : List String) (key : String) : List String :=
  if key ∈ selected then selected.filter (· ≠ key)
  else selected ++ [key]

/-- The fill of a grid-cell background as `render` computes it when the
cell is created (lines 348–352): a function of selected / hovered of the
cell's row. -/
def renderGridCellFill (selected : List String) (hovered : Option String)
    (rowKey : String) : String :=
  let isSelected := selected.contains rowKey
  let isHovered := hovered == some rowKey
  if isSelected then "#FF9806" else if isHovered then "#FFBD62" else "white"

/-- The fill of a membership circle as `render` computes it (lines
368–375): a function of selected / hovered of the row and of membership
of the column's set in the row's combination key. -/
def renderCircleFill (selected : List String) (hovered : Option String)
    (setName rowKey : String) : String :=
  let isSelected := selected.contains rowKey
  let isHovered := hovered == some rowKey
  let isIncluded := isSetInIntersection setName rowKey
  if isSelected then (if isIncluded then "#FF6F00" else "#807A79")
  else (if isIncluded then (if isHovered then "#FF9C46" else "#030202") else "#807A79")

/-- The fill of a value bar as `render` computes it (lines 389–393). -/
def renderValueBarFill (selected : List String) (hovered : Option String)
    (rowKey : String) : String :=
  let isSelected := selected.contains rowKey
  let isHovered := hovered == some rowKey
  if isSelected then "#FF6F00" else if isHovered then "#FF9C46" else "#030202"

/-- The fill `UpsetPlot.updateHighlighting` re-assigns to a grid-cell
background (lines 530–533), from the datum bound to the element at
creation. -/
def updateGridCellFill (selected : List String) (hovered : Option String)
    (rowKey : String) : String :=
  let isSelected := selected.contains rowKey
  let isHovered := hovered == some rowKey
  if isSelected then "#FF9806" else if isHovered then "#FFBD62" else "white"

/-- The fill `updateHighlighting` re-assigns to a membership circle
(lines 538–544). -/
def updateCircleFill (selected : List String) (hovered : Option String)
    (setName rowKey : String) : String :=
  let isSelected := selected.contains rowKey
  let isHovered := hovered == some rowKey
  let isIncluded := isSetInIntersection setName rowKey
  if isSelected then (if isIncluded then "#FF6F00" else "#807A79")
  else (if isIncluded then (if isHovered then "#FF9C46" else "#030202") else "#807A79")

/-- The fill `updateHighlighting` re-assigns to a value bar
(lines 549–552). -/
def updateValueBarFill (selected : List String) (hovered : Option String)
    (rowKey : String) : String :=
  let isSelected := selected.contains rowKey
  let isHovered := hovered == some rowKey
  if isSelected then "#FF6F00" else if isHovered then "#FF9C46" else "#030202"

/-- A one-set, one-intersection model, used as the concrete non-empty
model of the witnesses and counterexamples below. -/
def exModel : UpsetMatrixData := ⟨["A"], [⟨"A", 1⟩]⟩

/-- Dimensions whose margins exceed them: 100 × 30 leaves an effective
chart area of (100 − 70 − 60) × (30 − 30 − 10), both negative. -/
def exDims : Dimensions := ⟨100, 30, 16⟩

theorem parseLine_error_of_violation (m : UpsetMatrixData) (line : String)
    (h : lineFormatViolation line) : parseLine m line = .error (.formatError line) := by
  obtain ⟨h1, h2, h3⟩ := h
  unfold parseLine
  rw [if_neg h1, if_neg (by rw [h2]; exact Bool.false_ne_true)]
  split
  · next f0 f1 heq =>
    exfalso
    exact h3 (by simp [heq])
  · next heq => rfl

theorem parseLine_ok_of_no_violation (m : UpsetMatrixData) (line : String)
    (h : ¬ lineFormatViolation line) : ∃ m', parseLine m line = .ok m' := by
  unfold parseLine
  by_cases h1 : jsTrim line = ""
  · exact ⟨m, by rw [if_pos h1]⟩
  by_cases h2 : startsWithChar '#' line = true
  · exact ⟨m, by rw [if_neg h1, if_pos h2]⟩
  have h2' : startsWithChar '#' line = false := by
    simpa using h2
  have h3 : (jsSplit '\t' line).length = 2 := by
    by_contra hlen
    exact h ⟨h1, h2', hlen⟩
  rcases List.length_eq_two.mp h3 with ⟨f0, f1, hs⟩
  rw [if_neg h1, if_neg h2, hs]
  cases hv : jsParseInt (jsTrim f1) with
  | some v => exact ⟨addIntersection m (jsTrim f0) v, by simp [hv]⟩
  | none => exact ⟨m, by simp [hv]⟩

theorem parseLines_error_iff (m : UpsetMatrixData) (ls : List String) :
    (∃ e, parseLines m ls = .error e) ↔ ∃ l ∈ ls, lineFormatViolation l := by
  induction ls generalizing m with
  | nil => simp [parseLines]
  | cons l ls ih =>
    by_cases hviol : lineFormatViolation l
    · rw [parseLines, parseLine_error_of_violation m l hviol]
      simp [hviol]
    · rcases parseLine_ok_of_no_violation m l hviol with ⟨m', hok⟩
      rw [parseLines, hok]
      simpa [hviol] using ih m'

/-- Claim C1: `parseUpsetMatrix` rejects with a format error if and only
if some line that is neither blank after trimming nor a `'#'` comment does
not split on tab into exactly two fields; the rejection (`Except.error`,
the promise rejection, distinct from the `FileReader` read failure that
never reaches the parser) carries no model, so no partial model is
delivered. -/
theorem parse_formatError_iff (text : String) :
    (∃ e, parseUpsetMatrix text = .error e) ↔
      ∃ line ∈ jsSplit '\n' text, jsTrim line ≠ "" ∧
        startsWithChar '#' line = false ∧ (jsSplit '\t' line).length ≠ 2 := by
  have h := parseLines_error_iff emptyData (jsSplit '\n' text)
  unfold parseUpsetMatrix
  simpa [lineFormatViolation] using h

theorem parseLine_drop (m : UpsetMatrixData) {line f0 f1 : String}
    (hsplit : jsSplit '\t' line = [f0, f1]) (hv : jsParseInt (jsTrim f1) = none) :
    parseLine m line = .ok m := by
  unfold parseLine
  split
  · rfl
  · split
    · rfl
    · rw [hsplit]
      simp [hv]

theorem parseLines_drop (pre post : List String) {line f0 f1 : String}
    (hsplit : jsSplit '\t' line = [f0, f1]) (hv : jsParseInt (jsTrim f1) = none)
    (m : UpsetMatrixData) :
    parseLines m (pre ++ line :: post) = parseLines m (pre ++ post) := by
  induction pre generalizing m with
  | nil =>
    simp only [List.nil_append]
    rw [parseLines, parseLine_drop m hsplit hv]
  | cons l pre ih =>
    simp only [List.cons_append]
    rw [parseLines, parseLines]
    cases parseLine m l with
    | ok m' => exact ih m'
    | error e => rfl

/-- Claim C2: a line with exactly two tab-separated fields whose second
field does not parse as an integer is dropped without failing — the parse
of a line list containing it equals the parse without it (no entry added,
later lines processed, same overall result) — and on the concrete input
`"SetA\tNaN\n"` the parse succeeds with an empty intersection list and an
empty set collection. -/
theorem valueWarning_line_dropped :
    (∀ (m : UpsetMatrixData) (pre post : List String) (line f0 f1 : String),
        jsSplit '\t' line = [f0, f1] → jsParseInt (jsTrim f1) = none →
        parseLines m (pre ++ line :: post) = parseLines m (pre ++ post)) ∧
    parseUpsetMatrix "SetA\tNaN\n" = .ok emptyData :=
  ⟨fun m pre post _ _ _ hs hv => parseLines_drop pre post hs hv m, rfl⟩

/-- Witness for C2: dropping the middle line `"SetB\tNaN"` of a concrete
three-line input leaves the parse of the remaining two lines. -/
theorem valueWarning_line_dropped_witness :
    parseLines emptyData ["SetA\t3", "SetB\tNaN", "SetC\t4"] =
      parseLines emptyData ["SetA\t3", "SetC\t4"] :=
  valueWarning_line_dropped.1 emptyData ["SetA\t3"] ["SetC\t4"] "SetB\tNaN" "SetB" "NaN"
    rfl rfl

theorem le_foldl_max (l : List Int) (a : Int) : a ≤ l.foldl max a := by
  induction l generalizing a with
  | nil => exact le_refl a
  | cons b t ih => exact le_trans (le_max_left a b) (ih (max a b))

theorem mem_le_foldl_max (l : List Int) (a x : Int) (hx : x ∈ l) : x ≤ l.foldl max a := by
  induction l generalizing a with
  | nil => cases hx
  | cons b t ih =>
    rcases List.mem_cons.mp hx with rfl | hx'
    · exact le_trans (le_max_right a x) (le_foldl_max t _)
    · exact ih _ hx'

theorem foldl_max_eq_or_mem (l : List Int) (a : Int) :
    l.foldl max a = a ∨ l.foldl max a ∈ l := by
  induction l generalizing a with
  | nil => exact .inl rfl
  | cons b t ih =>
    rcases ih (max a b) with h | h
    · rcases max_choice a b with hab | hab
      · exact .inl (by rw [List.foldl_cons, h, hab])
      · exact .inr (by rw [List.foldl_cons, h, hab]; exact List.mem_cons_self b t)
    · exact .inr (List.mem_cons_of_mem b h)

/-- Claim C8: `getMaxIntersectionValue` returns 0 on an empty intersection
list, and on a non-empty one returns the maximum of all intersection
values (an upper bound that is attained). -/
theorem getMaxIntersectionValue_spec :
    (∀ m : UpsetMatrixData, m.intersections = [] → getMaxIntersectionValue m = 0) ∧
    (∀ m : UpsetMatrixData, m.intersections ≠ [] →
      (∀ e ∈ m.intersections, e.value ≤ getMaxIntersectionValue m) ∧
      ∃ e ∈ m.intersections, getMaxIntersectionValue m = e.value) := by
  constructor
  · intro m hm
    unfold getMaxIntersectionValue
    rw [hm]
    rfl
  · intro m hm
    obtain ⟨e0, es, hl⟩ := List.exists_cons_of_ne_nil hm
    have hmax : getMaxIntersectionValue m = (es.map Intersection.value).foldl max e0.value := by
      unfold getMaxIntersectionValue
      rw [hl]
      rfl
    constructor
    · intro e he
      rw [hl] at he
      rw [hmax]
      rcases List.mem_cons.mp he with rfl | he'
      · exact le_foldl_max _ _
      · exact mem_le_foldl_max _ _ _ (List.mem_map_of_mem Intersection.value he')
    · rcases foldl_max_eq_or_mem (es.map Intersection.value) e0.value with h | h
      · exact ⟨e0, by rw [hl]; exact List.mem_cons_self _ _, by rw [hmax, h]⟩
      · rcases List.mem_map.mp h with ⟨e, he, hev⟩
        exact ⟨e, by rw [hl]; exact List.mem_cons_of_mem _ he, by rw [hmax, ← hev]⟩

/-- Witness for C8: the empty model evaluates to 0, and on a concrete
one-entry model the maximum is an attained upper bound. -/
theorem getMaxIntersectionValue_spec_witness :
    getMaxIntersectionValue emptyData = 0 ∧
    ((∀ e ∈ exModel.intersections, e.value ≤ getMaxIntersectionValue exModel) ∧
      ∃ e ∈ exModel.intersections, getMaxIntersectionValue exModel = e.value) :=
  ⟨getMaxIntersectionValue_spec.1 emptyData rfl,
   getMaxIntersectionValue_spec.2 exModel (by decide)⟩

/-- Claim C9: with no external click handler registered, clicking the same
row twice returns the selected collection to its prior state viewed as a
set of keys — the toggle (remove if present, else append) is an involution
on selection membership. -/
theorem clickToggle_twice_mem (selected : List String) (key x : String) :
    x ∈ clickToggle (clickToggle selected key) key ↔ x ∈ selected := by
  unfold clickToggle
  by_cases hk : key ∈ selected
  · rw [if_pos hk]
    have hknot : key ∉ selected.filter (· ≠ key) := by
      simp [List.mem_filter]
    rw [if_neg hknot]
    simp only [List.mem_append, List.mem_filter, List.mem_singleton, decide_eq_true_eq]
    constructor
    · rintro (⟨hx, _⟩ | rfl)
      · exact hx
      · exact hk
    · intro hx
      by_cases hxk : x = key
      · exact .inr hxk
      · exact .inl ⟨hx, hxk⟩
  · rw [if_neg hk]
    have hkmem : key ∈ selected ++ [key] := by simp
    rw [if_pos hkmem]
    simp only [List.filter_append, List.mem_append, List.mem_filter, decide_eq_true_eq]
    constructor
    · rintro (⟨hx, _⟩ | hx)
      · exact hx
      · simp at hx
    · intro hx
      exact .inl ⟨hx, fun hxy => hk (hxy ▸ hx)⟩

/-- Claim C10: the recolor-only path (`updateHighlighting`) assigns every
grid-cell background, membership circle and value bar exactly the fill a
full `render` would assign for the same interaction state: the two paths
implement the same color-state function of (selected, hovered,
included). -/
theorem updateHighlighting_matches_render :
    (∀ sel hov rowKey, updateGridCellFill sel hov rowKey = renderGridCellFill sel hov rowKey) ∧
    (∀ sel hov setName rowKey,
        updateCircleFill sel hov setName rowKey = renderCircleFill sel hov setName rowKey) ∧
    (∀ sel hov rowKey,
        updateValueBarFill sel hov rowKey = renderValueBarFill sel hov rowKey) :=
  ⟨fun _ _ _ => rfl, fun _ _ _ _ => rfl, fun _ _ _ => rfl⟩

theorem addSet_mem (m : UpsetMatrixData) (n a : String) :
    a ∈ (addSet m n).sets ↔ a ∈ m.sets ∨ a = n := by
  unfold addSet
  by_cases hn : n ∈ m.sets
  · rw [if_pos hn]
    constructor
    · exact fun h => .inl h
    · rintro (h | rfl)
      · exact h
      · exact hn
  · rw [if_neg hn]
    simp [List.mem_append]

theorem addSet_intersections (m : UpsetMatrixData) (n : String) :
    (addSet m n).intersections = m.intersections := by
  unfold addSet
  split <;> rfl

theorem addSet_nodup (m : UpsetMatrixData) (n : String) (h : m.sets.Nodup) :
    (addSet m n).sets.Nodup := by
  unfold addSet
  by_cases hn : n ∈ m.sets
  · rw [if_pos hn]
    exact h
  · rw [if_neg hn]
    simp [List.nodup_append, h, hn]

theorem foldl_addSet_mem (names : List String) (m : UpsetMatrixData) (a : String) :
    a ∈ (names.foldl addSet m).sets ↔ a ∈ m.sets ∨ a ∈ names := by
  induction names generalizing m with
  | nil => simp
  | cons n names ih =>
    rw [List.foldl_cons, ih, addSet_mem]
    simp only [List.mem_cons]
    tauto

theorem foldl_addSet_intersections (names : List String) (m : UpsetMatrixData) :
    (names.foldl addSet m).intersections = m.intersections := by
  induction names generalizing m with
  | nil => rfl
  | cons n names ih => rw [List.foldl_cons, ih, addSet_intersections]

theorem foldl_addSet_nodup (names : List String) (m : UpsetMatrixData)
    (h : m.sets.Nodup) : (names.foldl addSet m).sets.Nodup := by
  induction names generalizing m with
  | nil => exact h
  | cons n names ih => exact ih _ (addSet_nodup m n h)

theorem addIntersection_mem (m : UpsetMatrixData) (k : String) (v : Int) (a : String) :
    a ∈ (addIntersection m k v).sets ↔ a ∈ m.sets ∨ a ∈ components k := by
  unfold addIntersection
  rw [foldl_addSet_mem]

theorem addIntersection_intersections (m : UpsetMatrixData) (k : String) (v : Int) :
    (addIntersection m k v).intersections = m.intersections ++ [⟨k, v⟩] := by
  unfold addIntersection
  rw [foldl_addSet_intersections]

theorem addIntersection_nodup (m : UpsetMatrixData) (k : String) (v : Int)
    (h : m.sets.Nodup) : (addIntersection m k v).sets.Nodup :=
  foldl_addSet_nodup _ _ h

theorem foldl_addIntersection_mem (adds : List (String × Int)) (m : UpsetMatrixData)
    (a : String) :
    a ∈ (adds.foldl (fun m kv => addIntersection m kv.1 kv.2) m).sets ↔
      a ∈ m.sets ∨ ∃ kv ∈ adds, a ∈ components kv.1 := by
  induction adds generalizing m with
  | nil => simp
  | cons kv adds ih =>
    rw [List.foldl_cons, ih, addIntersection_mem]
    simp only [List.mem_cons]
    constructor
    · rintro ((h | h) | ⟨kw, hkw, ha⟩)
      · exact .inl h
      · exact .inr ⟨kv, .inl rfl, h⟩
      · exact .inr ⟨kw, .inr hkw, ha⟩
    · rintro (h | ⟨kw, (rfl | hkw), ha⟩)
      · exact .inl (.inl h)
      · exact .inl (.inr ha)
      · exact .inr ⟨kw, hkw, ha⟩

theorem buildModel_mem (adds : List (String × Int)) (a : String) :
    a ∈ (buildModel adds).sets ↔ ∃ kv ∈ adds, a ∈ components kv.1 := by
  unfold buildModel
  rw [foldl_addIntersection_mem]
  simp [emptyData]

theorem buildModel_nodup (adds : List (String × Int)) : (buildModel adds).sets.Nodup := by
  unfold buildModel
  have h : ∀ (l : List (String × Int)) (m : UpsetMatrixData), m.sets.Nodup →
      (l.foldl (fun m kv => addIntersection m kv.1 kv.2) m).sets.Nodup := by
    intro l
    induction l with
    | nil => exact fun m hm => hm
    | cons kv l ih => exact fun m hm => ih _ (addIntersection_nodup m kv.1 kv.2 hm)
  exact h adds emptyData List.nodup_nil

theorem unionComponents_mem (adds : List (String × Int)) (a : String) :
    a ∈ unionComponents adds ↔ ∃ kv ∈ adds, a ∈ components kv.1 := by
  unfold unionComponents
  induction adds with
  | nil => simp
  | cons kv adds ih =>
    simp only [List.foldr_cons, Finset.mem_union, List.mem_toFinset, ih, List.mem_cons]
    constructor
    · rintro (h | ⟨kw, hkw, ha⟩)
      · exact ⟨kv, .inl rfl, h⟩
      · exact ⟨kw, .inr hkw, ha⟩
    · rintro ⟨kw, (rfl | hkw), ha⟩
      · exact .inl ha
      · exact .inr ⟨kw, hkw, ha⟩

theorem foldl_addSet_known (names : List String) (m : UpsetMatrixData)
    (h : ∀ c ∈ names, c ∈ m.sets) : names.foldl addSet m = m := by
  induction names with
  | nil => rfl
  | cons n names ih =>
    rw [List.foldl_cons]
    have hn : addSet m n = m := by
      unfold addSet
      rw [if_pos (h n (List.mem_cons_self n names))]
    rw [hn]
    exact ih fun c hc => h c (List.mem_cons_of_mem n hc)

/-- Claim C3: for every sequence of `addIntersection` calls on a fresh
model, the set collection is exactly the union of the comma-split
components of all added combination keys (membership form and `Finset`
form), the number of distinct set names equals the size of that union,
and adding an intersection whose components are all already known leaves
the set collection unchanged. -/
theorem sets_eq_union_of_components :
    (∀ (adds : List (String × Int)) (name : String),
        name ∈ (buildModel adds).sets ↔ ∃ kv ∈ adds, name ∈ components kv.1) ∧
    (∀ adds : List (String × Int),
        (buildModel adds).sets.toFinset = unionComponents adds) ∧
    (∀ adds : List (String × Int),
        (buildModel adds).sets.length = (unionComponents adds).card) ∧
    (∀ (m : UpsetMatrixData) (k : String) (v : Int),
        (∀ c ∈ components k, c ∈ m.sets) → (addIntersection m k v).sets = m.sets) := by
  have hfin : ∀ adds : List (String × Int),
      (buildModel adds).sets.toFinset = unionComponents adds := by
    intro adds
    ext a
    rw [List.mem_toFinset, buildModel_mem, unionComponents_mem]
  refine ⟨fun adds name => buildModel_mem adds name, hfin, ?_, ?_⟩
  · intro adds
    rw [← hfin adds, List.toFinset_card_of_nodup (buildModel_nodup adds)]
  · intro m k v h
    unfold addIntersection
    rw [foldl_addSet_known (components k)
      { m with intersections := m.intersections ++ [⟨k, v⟩] } h]

/-- Witness for C3: a concrete run — building from the three additions of
spec Scenario A yields exactly the two component names, and re-adding a
key whose components are known does not grow the set list. -/
theorem sets_eq_union_of_components_witness :
    ("SetB" ∈ (buildModel [("SetA", 120), ("SetB", 150), ("SetA,SetB", 45)]).sets ↔
      ∃ kv ∈ [(("SetA" : String), (120 : Int)), ("SetB", 150), ("SetA,SetB", 45)],
        "SetB" ∈ components kv.1) ∧
    (addIntersection ⟨["SetA", "SetB"], []⟩ "SetA,SetB" 45).sets = ["SetA", "SetB"] :=
  ⟨sets_eq_union_of_components.1 [("SetA", 120), ("SetB", 150), ("SetA,SetB", 45)] "SetB",
   sets_eq_union_of_components.2.2.2 ⟨["SetA", "SetB"], []⟩ "SetA,SetB" 45 (by decide)⟩

theorem jsParseInt_nonneg (s : String) (h : s.data.head? ≠ some '-') (v : Int)
    (hv : jsParseInt s = some v) : 0 ≤ v := by
  unfold jsParseInt at hv
  split at hv
  · next cs heq => exact absurd (by rw [heq]; rfl) h
  · next cs heq =>
    split at hv
    · exact absurd hv (by simp)
    · injection hv with hv
      rw [← hv]
      exact Int.ofNat_nonneg _
  · split at hv
    · exact absurd hv (by simp)
    · injection hv with hv
      rw [← hv]
      exact Int.ofNat_nonneg _

theorem parseLine_ok_cases (m : UpsetMatrixData) (line : String) (m' : UpsetMatrixData)
    (h : parseLine m line = .ok m') :
    m' = m ∨ ∃ f0 f1 v, jsSplit '\t' line = [f0, f1] ∧
      jsParseInt (jsTrim f1) = some v ∧ m' = addIntersection m (jsTrim f0) v := by
  unfold parseLine at h
  split at h
  · exact .inl (by injection h with h; exact h.symm)
  · split at h
    · exact .inl (by injection h with h; exact h.symm)
    · split at h
      · next f0 f1 heq =>
        split at h
        · next v hv =>
          refine .inr ⟨f0, f1, v, heq, hv, ?_⟩
          injection h with h
          exact h.symm
        · exact .inl (by injection h with h; exact h.symm)
      · exact absurd h (by simp)

theorem parseLines_values_nonneg (ls : List String) (m0 m : UpsetMatrixData)
    (hok : parseLines m0 ls = .ok m)
    (hinv : ∀ e ∈ m0.intersections, 0 ≤ e.value)
    (hsign : ∀ l ∈ ls, (jsTrim ((jsSplit '\t' l).getD 1 "")).data.head? ≠ some '-') :
    ∀ e ∈ m.intersections, 0 ≤ e.value := by
  induction ls generalizing m0 with
  | nil =>
    rw [parseLines] at hok
    injection hok with hok
    rw [← hok]
    exact hinv
  | cons l ls ih =>
    rw [parseLines] at hok
    cases hpl : parseLine m0 l with
    | error e =>
      rw [hpl] at hok
      exact absurd hok (by simp)
    | ok m1 =>
      rw [hpl] at hok
      refine ih m1 hok ?_ fun l' hl' => hsign l' (List.mem_cons_of_mem l hl')
      rcases parseLine_ok_cases m0 l m1 hpl with rfl | ⟨f0, f1, v, hs, hv, rfl⟩
      · exact hinv
      · intro e he
        rw [addIntersection_intersections] at he
        rcases List.mem_append.mp he with he | he
        · exact hinv e he
        · rcases List.mem_singleton.mp he with rfl
          have hhead := hsign l (List.mem_cons_self l ls)
          rw [hs] at hhead
          simp only [List.getD_cons_succ, List.getD_cons_zero] at hhead
          exact jsParseInt_nonneg _ hhead v hv

/-- Claim C4, amended: every intersection entry of a successfully parsed
model has an integer value, and that value is non-negative provided the
trimmed second field of no line begins with a `'-'` sign. The original
claim (every value of a successful parse is non-negative) fails on the
code: `parseInt` accepts a sign, so a line such as `"SetA\t-5"` is
accepted with a negative value. -/
theorem parse_values_nonneg (text : String) (m : UpsetMatrixData)
    (hok : parseUpsetMatrix text = .ok m)
    (hsign : ∀ line ∈ jsSplit '\n' text,
        (jsTrim ((jsSplit '\t' line).getD 1 "")).data.head? ≠ some '-') :
    ∀ e ∈ m.intersections, 0 ≤ e.value :=
  parseLines_values_nonneg (jsSplit '\n' text) emptyData m hok
    (by intro e he; cases he) hsign

/-- Witness for C4 (amended form): a concrete sign-free input parses with
a non-negative value on its (only) entry. -/
theorem parse_values_nonneg_witness :
    0 ≤ (⟨"SetA", 7⟩ : Intersection).value :=
  parse_values_nonneg "SetA\t7" ⟨["SetA"], [⟨"SetA", 7⟩]⟩ rfl (by decide)
    ⟨"SetA", 7⟩ (by decide)

/-- Counterexample to C4 as stated: the input `"SetA\t-5"` parses
successfully — the second field `"-5"` passes `parseInt` — and the
resulting model's only intersection entry carries the negative value
`-5`. -/
theorem parse_accepts_negative_value :
    parseUpsetMatrix "SetA\t-5" = .ok ⟨["SetA"], [⟨"SetA", -5⟩]⟩ ∧ (-5 : Int) < 0 :=
  ⟨rfl, by decide⟩

/-- Claim C5: on every non-empty model and positive chart dimensions the
computed geometry gives each dot-matrix cell the width
`dot_width / sets.length` with `dot_width` exactly half the effective
chart width, and each row the height
`min(30, dot_height / intersections.length)`, hence never above 30. -/
theorem layout_cell_dimensions (dims : Dimensions) (m : UpsetMatrixData)
    (hS : m.sets ≠ []) (hN : m.intersections ≠ [])
    (hW : 0 < dims.width) (hH : 0 < dims.height) :
    ∃ out, render dims m = some out ∧
      out.dot_width = out.width * (1/2) ∧
      out.cell_width = out.dot_width / (m.sets.length : ℚ) ∧
      out.cell_height = min 30 (out.dot_height / (m.intersections.length : ℚ)) ∧
      out.cell_height ≤ 30 := by
  refine ⟨computeLayout dims m, ?_, rfl, rfl, rfl, min_le_left _ _⟩
  unfold render
  rw [if_neg]
  intro hcond
  rcases Bool.or_eq_true_iff.mp hcond with h | h
  · exact hS (List.isEmpty_iff.mp h)
  · exact hN (List.isEmpty_iff.mp h)

/-- Witness for C5: the layout equations instantiated on a concrete
model and 800 × 600 chart. -/
theorem layout_cell_dimensions_witness :
    ∃ out, render ⟨800, 600, 16⟩ exModel = some out ∧
      out.dot_width = out.width * (1/2) ∧
      out.cell_width = out.dot_width / (exModel.sets.length : ℚ) ∧
      out.cell_height = min 30 (out.dot_height / (exModel.intersections.length : ℚ)) ∧
      out.cell_height ≤ 30 :=
  layout_cell_dimensions ⟨800, 600, 16⟩ exModel (by decide) (by decide)
    (by norm_num) (by norm_num)

/-- Claim C6, amended: `render` skips drawing exactly when the model has
zero sets or zero intersections — the empty-dataset guard is the only
early return. A zero or negative effective chart width or height after
the margins does not trigger the skip: the drawing path still runs, with
degenerate geometry (the embedding is total, matching the source, which
throws nothing there). -/
theorem render_skips_iff_empty (dims : Dimensions) (m : UpsetMatrixData) :
    render dims m = none ↔ m.sets = [] ∨ m.intersections = [] := by
  unfold render
  constructor
  · intro h
    by_cases hs : m.sets.isEmpty
    · exact .inl (List.isEmpty_iff.mp hs)
    by_cases hi : m.intersections.isEmpty
    · exact .inr (List.isEmpty_iff.mp hi)
    rw [if_neg (by simp [hs, hi])] at h
    exact absurd h (by simp)
  · intro h
    rw [if_pos]
    rcases h with h | h <;> simp [h]

/-- Counterexample to C6 as stated: with the concrete 100 × 30 dimensions
both effective chart extents are negative, yet `render` on a non-empty
model does not skip — it draws (returns the computed geometry) instead of
behaving as on an empty dataset. -/
theorem render_negative_area_still_draws :
    (computeLayout exDims exModel).width < 0 ∧
    (computeLayout exDims exModel).height < 0 ∧
    render exDims exModel = some (computeLayout exDims exModel) := by
  refine ⟨?_, ?_, rfl⟩
  · show (100 : ℚ) - max 70 ((100 : ℚ) * (3/20)) - max 60 ((100 : ℚ) * (1/10)) < 0
    rw [max_def, max_def]
    norm_num
  · show (30 : ℚ) - 30 - 10 < 0
    norm_num

/-- Claim C7: an intersection row label is displayed in full exactly when
the key's length is within the budget `⌊leftMargin / (fontSize·0.6)⌋ − 2`;
a longer key is truncated — `substring(0, budget − 3)` plus the
three-character ellipsis, so the displayed text is exactly `budget`
characters long (the ellipsis counts against the budget) — and `render`
always attaches the untruncated key as the label's `title` (hover)
text. -/
theorem intersectionLabel_truncation :
    (∀ (mL fs : ℚ) (key : String), (key.length : Int) ≤ maxDisplayLength mL fs →
        truncateLabel mL fs key = key) ∧
    (∀ (mL fs : ℚ) (key : String), maxDisplayLength mL fs < (key.length : Int) →
        truncateLabel mL fs key =
          jsSubstring key (maxDisplayLength mL fs - 3) ++ "..." ∧
        (3 ≤ maxDisplayLength mL fs →
          ((truncateLabel mL fs key).length : Int) = maxDisplayLength mL fs)) ∧
    (∀ (dims : Dimensions) (m : UpsetMatrixData) (out : RenderLayout),
        render dims m = some out →
        out.intersectionLabels = m.intersections.map fun e =>
          (truncateLabel out.marginLeft out.labelFontSize e.set, e.set)) := by
  refine ⟨?_, ?_, ?_⟩
  · intro mL fs key h
    unfold truncateLabel
    rw [if_neg (not_lt.mpr h)]
  · intro mL fs key h
    have htr : truncateLabel mL fs key =
        jsSubstring key (maxDisplayLength mL fs - 3) ++ "..." := by
      unfold truncateLabel
      rw [if_pos h]
    refine ⟨htr, ?_⟩
    intro h3
    rw [htr, String.length_append]
    have hdata : key.data.length = key.length := rfl
    have hsub : (jsSubstring key (maxDisplayLength mL fs - 3)).length
        = (maxDisplayLength mL fs - 3).toNat := by
      unfold jsSubstring
      show (key.data.take (maxDisplayLength mL fs - 3).toNat).length = _
      rw [List.length_take]
      apply min_eq_left
      omega
    rw [hsub]
    have hdots : ("..." : String).length = 3 := rfl
    rw [hdots]
    omega
  · intro dims m out h
    unfold render at h
    split at h
    · exact absurd h (by simp)
    · injection h with h
      rw [← h]
      rfl

/-- Witness for C7: with a 70-pixel left margin and font size 10 the
budget is `⌊70/6⌋ − 2 = 9`, so the 4-character key `"SetA"` is shown in
full and the 14-character key `"SetA,SetB,SetC"` is truncated to the
budget. -/
theorem intersectionLabel_truncation_witness :
    truncateLabel 70 10 "SetA" = "SetA" ∧
    (truncateLabel 70 10 "SetA,SetB,SetC" =
        jsSubstring "SetA,SetB,SetC" (maxDisplayLength 70 10 - 3) ++ "..." ∧
      (3 ≤ maxDisplayLength 70 10 →
        ((truncateLabel 70 10 "SetA,SetB,SetC").length : Int) = maxDisplayLength 70 10)) := by
  have hmd : maxDisplayLength 70 10 = 9 := by
    unfold maxDisplayLength
    have h35 : ((70 : ℚ) / (10 * (3/5))) = 35/3 := by norm_num
    rw [h35]
    have hfl : ⌊(35/3 : ℚ)⌋ = 11 := by
      rw [Int.floor_eq_iff]
      norm_num
    omega
  exact ⟨intersectionLabel_truncation.1 70 10 "SetA" (by rw [hmd]; decide),
    intersectionLabel_truncation.2.1 70 10 "SetA,SetB,SetC" (by rw [hmd]; decide)⟩
